import Mathlib

/-!
Shallow embedding of the todo application in src/app/index.tsx.

The state-bearing logic of the app is the React component App: a list of
Todo records mutated by handleAdd, handleEdit, handleDelete and
handleToggle, a derived display order sortedTodos, and the modal editor
session (modalVisible, editing). Strings are modelled as Lean strings, the
JS String.prototype.trim as jsTrim, Date.now() readings as a Nat parameter
of the commit event, and the stable ES2019 Array.prototype.sort as a stable
insertion sort with the same comparator.
-/

/-- The Todo record type (index.tsx lines 30-35). -/
structure Todo where
  id : String
  text : String
  description : String
  completed : Bool
deriving Repr, DecidableEq

/-- The JS whitespace characters relevant to String.prototype.trim:
the WhiteSpace and LineTerminator code points used in practice. -/
def isJsWs (c : Char) : Bool :=
  c == ' ' || c == '\t' || c == '\n' || c == '\r' ||
  c == '\x0b' || c == '\x0c' || c == '\u00A0' || c == '\uFEFF'

/-- Model of JS String.prototype.trim (used at index.tsx lines 182-183 and
208-209): drop whitespace from both ends of the character sequence. -/
def jsTrim (s : String) : String :=
  String.mk (((s.data.dropWhile isJsWs).reverse.dropWhile isJsWs).reverse)

/-- handleToggle (index.tsx lines 297-303): flip the completed flag of the
record whose id matches, leave every other record alone. -/
def toggleTodo (id : String) (s : List Todo) : List Todo :=
  s.map (fun t => if t.id == id then { t with completed := !t.completed } else t)

/-- handleEdit (index.tsx lines 283-291), with the edit target id made
explicit: replace text and description on the record whose id matches. -/
def updateTodo (id text description : String) (s : List Todo) : List Todo :=
  s.map (fun t =>
    if t.id == id then { t with text := text, description := description } else t)

/-- handleDelete (index.tsx lines 293-295): keep the records whose id does
not match. -/
def removeTodo (id : String) (s : List Todo) : List Todo :=
  s.filter (fun t => t.id != id)

/-- handleAdd (index.tsx lines 275-281): append a record whose id is
Date.now().toString(); the clock argument stands for the Date.now()
reading at that event. -/
def addTodo (clock : Nat) (text description : String) (s : List Todo) : List Todo :=
  s ++ [{ id := Nat.repr clock, text := text, description := description,
          completed := false }]

/-- The comparator passed to sort at index.tsx lines 270-273. -/
def cmpTodo (a b : Todo) : Int :=
  if a.completed = b.completed then 0 else if a.completed then 1 else -1

/-- Insert a record in front of the first element it does not compare
strictly after. -/
def insertByCmp (x : Todo) : List Todo → List Todo
  | [] => [x]
  | y :: ys => if cmpTodo x y ≤ 0 then x :: y :: ys else y :: insertByCmp x ys

/-- Stable insertion sort with cmpTodo. ES2019 requires
Array.prototype.sort to be stable, and for a consistent comparator every
stable sort computes the same list, so this is the sort at line 270. -/
def sortByCmp : List Todo → List Todo
  | [] => []
  | x :: xs => insertByCmp x (sortByCmp xs)

/-- sortedTodos (index.tsx lines 270-273): the derived display order,
incomplete records first. -/
def sortedTodos (todos : List Todo) : List Todo :=
  sortByCmp todos

/-- One List() computation: the code sorts a spread copy of the todos
array, so the render yields the display order and leaves the canonical
store as it was. First component: what is displayed; second component: the
canonical store after the computation. -/
def listOp (todos : List Todo) : List Todo × List Todo :=
  (sortedTodos todos, todos)

/-- Store-level operation alphabet for sequences of Adds and Removes. -/
inductive StoreOp where
  | add (text description : String) (clock : Nat)
  | remove (id : String)
deriving Repr, DecidableEq

/-- Apply one store operation. -/
def applyOp (s : List Todo) : StoreOp → List Todo
  | .add text description clock => addTodo clock text description s
  | .remove id => removeTodo id s

/-- Run a sequence of store operations. -/
def runOps (s : List Todo) (ops : List StoreOp) : List Todo :=
  ops.foldl applyOp s

def countAdds : List StoreOp → Nat
  | [] => 0
  | .add _ _ _ :: ops => countAdds ops + 1
  | .remove _ :: ops => countAdds ops

def countRemoves : List StoreOp → Nat
  | [] => 0
  | .add _ _ _ :: ops => countRemoves ops
  | .remove _ :: ops => countRemoves ops + 1

/-- Does some record in the store carry this id? -/
def idMem (i : String) : List Todo → Bool
  | [] => false
  | t :: ts => i == t.id || idMem i ts

/-- All ids in the store are pairwise distinct. -/
def uniqueIds : List Todo → Bool
  | [] => true
  | t :: ts => !(idMem t.id ts) && uniqueIds ts

/-- Well-formed operation sequence: every Add carries a title that is
non-empty after trimming and a clock whose id is fresh for the current
store, and every Remove targets an id present in the current store. -/
def wfOps (s : List Todo) : List StoreOp → Bool
  | [] => true
  | .add text description clock :: ops =>
      jsTrim text != "" && !(idMem (Nat.repr clock) s) &&
        wfOps (applyOp s (.add text description clock)) ops
  | .remove id :: ops =>
      idMem id s && wfOps (applyOp s (.remove id)) ops

/-- The editing state of App (index.tsx line 242). -/
structure EditTarget where
  id : String
  text : String
  description : String
deriving Repr, DecidableEq

/-- The state held by App: todos, modalVisible, editing
(index.tsx lines 240-242). -/
structure AppState where
  todos : List Todo
  modalVisible : Bool
  editing : Option EditTarget
deriving Repr, DecidableEq

/-- Initial state: empty store, modal closed, no edit target. -/
def initState : AppState :=
  { todos := [], modalVisible := false, editing := none }

/-- User interface events that mutate App state. pressSave covers both the
Save button (lines 207-211) and submit-editing on the title field (lines
181-185): both guard on text.trim() and call onSave with the trimmed
fields; its clock argument is the Date.now() reading. -/
inductive Event where
  | pressSave (text description : String) (clock : Nat)
  | pressCancel
  | pressFab
  | pressEditItem (id : String)
  | pressToggle (id : String)
  | pressDelete (id : String)
deriving Repr, DecidableEq

/-- One step of App state per user event, translated from the handlers of
index.tsx: the save path (lines 348-354) dispatches handleEdit when an
edit target is set and handleAdd otherwise; cancel (lines 344-347) and the
FAB (lines 331-335) reset the editor session; tapping a rendered item
(lines 319-322) loads it into the editor session. -/
def step (st : AppState) : Event → AppState
  | .pressSave text description clock =>
      if jsTrim text = "" then st
      else
        match st.editing with
        | some e =>
            { st with
              todos := updateTodo e.id (jsTrim text) (jsTrim description) st.todos,
              editing := none, modalVisible := false }
        | none =>
            { st with
              todos := addTodo clock (jsTrim text) (jsTrim description) st.todos,
              modalVisible := false }
  | .pressCancel => { st with editing := none, modalVisible := false }
  | .pressFab => { st with editing := none, modalVisible := true }
  | .pressEditItem id =>
      match st.todos.find? (fun t => t.id == id) with
      | some t =>
          { st with
            editing := some { id := t.id, text := t.text, description := t.description },
            modalVisible := true }
      | none => st
  | .pressToggle id => { st with todos := toggleTodo id st.todos }
  | .pressDelete id => { st with todos := removeTodo id st.todos }

/-- Run a sequence of user events from the initial state. -/
def run (events : List Event) : AppState :=
  events.foldl step initState

/-- A record whose text and description carry no leading or trailing
whitespace and whose text is non-empty. -/
def trimmedTodo (t : Todo) : Bool :=
  jsTrim t.text == t.text && t.text != "" && jsTrim t.description == t.description

/-- Every record in the store is trimmed and has a non-empty title. -/
def storeTrimmed (s : List Todo) : Bool :=
  s.all trimmedTodo

/-! ### Helper lemmas -/

theorem map_if_beq_eq_self (f : Todo → Todo) (id : String) (l : List Todo)
    (h : ∀ t ∈ l, (t.id == id) = false) :
    l.map (fun t => if t.id == id then f t else t) = l := by
  have hcongr : l.map (fun t => if t.id == id then f t else t) = l.map (fun t => t) := by
    apply List.map_congr_left
    intro a ha
    simp [h a ha]
  simpa using hcongr

theorem mem_removeTodo_beq (id : String) (s : List Todo) :
    ∀ t ∈ removeTodo id s, (t.id == id) = false := by
  intro t ht
  simp only [removeTodo, List.mem_filter] at ht
  simpa [bne] using ht.2

/-! ### C2: Toggle is an involution on the store -/

/-- C2: For every store state and every identifier, applying Toggle twice
in succession restores the store, so in particular every completion flag
returns to its value before the first Toggle. -/
theorem toggle_involution (id : String) (s : List Todo) :
    toggleTodo id (toggleTodo id s) = s := by
  have helem : ∀ t : Todo,
      (fun u : Todo => if u.id == id then { u with completed := !u.completed } else u)
        ((fun u : Todo => if u.id == id then { u with completed := !u.completed } else u) t)
        = t := by
    intro t
    by_cases h : (t.id == id) = true
    · simp only [h, if_pos, Bool.not_not]
    · have h' : (t.id == id) = false := by simpa using h
      simp only [h', Bool.false_eq_true, if_neg, ite_false]
  calc toggleTodo id (toggleTodo id s)
      = s.map ((fun u : Todo => if u.id == id then { u with completed := !u.completed } else u)
            ∘ (fun u : Todo => if u.id == id then { u with completed := !u.completed } else u)) := by
        simp [toggleTodo, List.map_map]
    _ = s.map (fun t => t) := by
        apply List.map_congr_left
        intro a _
        exact helem a
    _ = s := by simp

/-! ### C3: operations on a removed identifier are silent no-ops -/

/-- C3: After Remove(id) has deleted the record with that identifier,
Update(id, ...), Toggle(id) and Remove(id) all leave the store unchanged
(they are total functions, so no exception is possible). -/
theorem removed_id_noop (id text description : String) (s : List Todo) :
    updateTodo id text description (removeTodo id s) = removeTodo id s ∧
    toggleTodo id (removeTodo id s) = removeTodo id s ∧
    removeTodo id (removeTodo id s) = removeTodo id s := by
  refine ⟨?_, ?_, ?_⟩
  · exact map_if_beq_eq_self _ id _ (mem_removeTodo_beq id s)
  · exact map_if_beq_eq_self _ id _ (mem_removeTodo_beq id s)
  · simp [removeTodo, List.filter_filter]

/-! ### C7: Update only rewrites title and note of the matching record -/

/-- C7: Update(id, title, note) keeps the length of the store, keeps every
record's identifier and completion flag at every position, leaves any
record with a different identifier untouched, and rewrites the text and
description of the record whose identifier matches. -/
theorem update_frame (id x d : String) (s : List Todo) :
    (updateTodo id x d s).length = s.length ∧
    ∀ i : Nat, i < s.length →
      ∃ t t', s[i]? = some t ∧ (updateTodo id x d s)[i]? = some t' ∧
        t'.id = t.id ∧ t'.completed = t.completed ∧
        (t.id ≠ id → t' = t) ∧ (t.id = id → t'.text = x ∧ t'.description = d) := by
  constructor
  · simp [updateTodo]
  · intro i hi
    have hs : s[i]? = some s[i] := List.getElem?_eq_getElem hi
    refine ⟨s[i], if s[i].id == id then { s[i] with text := x, description := d } else s[i],
      hs, ?_, ?_, ?_, ?_, ?_⟩
    · simp [updateTodo, List.getElem?_map, hs]
    · by_cases h : (s[i].id == id) = true <;> simp [h]
    · by_cases h : (s[i].id == id) = true <;> simp [h]
    · intro hne
      have h : (s[i].id == id) = false := by simpa using hne
      simp [h]
    · intro heq
      have h : (s[i].id == id) = true := by simpa using heq
      simp [h]

/-! ### C4: commits with empty trimmed titles are suppressed -/

/-- C4: A commit attempted with a title that trims to the empty string is
rejected: the whole App state, and in particular the store and its length,
is unchanged. -/
theorem empty_title_commit_rejected (st : AppState) (text description : String)
    (clock : Nat) (h : jsTrim text = "") :
    step st (.pressSave text description clock) = st ∧
    (step st (.pressSave text description clock)).todos.length = st.todos.length := by
  have hstep : step st (.pressSave text description clock) = st := by
    simp [step, h]
  exact ⟨hstep, by rw [hstep]⟩

/-- Concrete instance of the rejected-commit theorem: a whitespace-only
title leaves a one-element store untouched. -/
theorem empty_title_commit_rejected_witness :
    jsTrim "   " = "" ∧
    step { todos := [{ id := "7", text := "a", description := "", completed := false }],
           modalVisible := true, editing := none }
        (.pressSave "   " "note" 42) =
      { todos := [{ id := "7", text := "a", description := "", completed := false }],
        modalVisible := true, editing := none } :=
  ⟨by decide,
   (empty_title_commit_rejected
      { todos := [{ id := "7", text := "a", description := "", completed := false }],
        modalVisible := true, editing := none } "   " "note" 42 (by decide)).1⟩

/-! ### Stable partition facts about the display order -/

theorem insertByCmp_incomplete (x : Todo) (hx : x.completed = false) (l : List Todo) :
    insertByCmp x l = x :: l := by
  cases l with
  | nil => rfl
  | cons y ys =>
    have hle : cmpTodo x y ≤ 0 := by
      by_cases hy : y.completed = true
      · simp [cmpTodo, hx, hy]
      · have hy' : y.completed = false := by simpa using hy
        simp [cmpTodo, hx, hy']
    simp [insertByCmp, hle]

theorem insertByCmp_complete (x : Todo) (hx : x.completed = true) :
    ∀ (A B : List Todo), (∀ a ∈ A, a.completed = false) →
      (∀ b ∈ B, b.completed = true) →
      insertByCmp x (A ++ B) = A ++ x :: B := by
  intro A
  induction A with
  | nil =>
    intro B _ hB
    cases B with
    | nil => rfl
    | cons y ys =>
      have hy : y.completed = true := hB y (by simp)
      have hle : cmpTodo x y ≤ 0 := by simp [cmpTodo, hx, hy]
      simp [insertByCmp, hle]
  | cons a as ih =>
    intro B hA hB
    have ha : a.completed = false := hA a (by simp)
    have hgt : ¬ cmpTodo x a ≤ 0 := by simp [cmpTodo, hx, ha]
    simp only [List.cons_append, insertByCmp, if_neg hgt, List.append_eq]
    rw [ih B (fun u hu => hA u (by simp [hu])) hB]

theorem sortByCmp_partition (s : List Todo) :
    sortByCmp s = s.filter (fun t => !t.completed) ++ s.filter (fun t => t.completed) := by
  induction s with
  | nil => rfl
  | cons t ts ih =>
    have hA : ∀ a ∈ ts.filter (fun u => !u.completed), a.completed = false := by
      intro a ha
      have := List.of_mem_filter ha
      simpa using this
    have hB : ∀ b ∈ ts.filter (fun u => u.completed), b.completed = true := by
      intro b hb
      exact List.of_mem_filter hb
    by_cases h : t.completed = true
    · rw [show sortByCmp (t :: ts) = insertByCmp t (sortByCmp ts) from rfl, ih,
          insertByCmp_complete t h _ _ hA hB]
      simp [List.filter_cons, h]
    · have h' : t.completed = false := by simpa using h
      rw [show sortByCmp (t :: ts) = insertByCmp t (sortByCmp ts) from rfl, ih,
          insertByCmp_incomplete t h']
      simp [List.filter_cons, h']

/-! ### C1: display order is a stable partition by the completion flag -/

/-- C1: The display order equals the incomplete records in insertion order
followed by the completed records in insertion order: every record with
completion=false comes before every record with completion=true, and
within each partition the relative order is the canonical store order. -/
theorem sorted_incomplete_first (s : List Todo) :
    sortedTodos s = s.filter (fun t => !t.completed) ++ s.filter (fun t => t.completed) :=
  sortByCmp_partition s

/-! ### C8: computing the display order does not touch the store -/

/-- C8: One List() computation leaves the canonical store exactly as it
was, and the displayed sequence is a permutation of the canonical store
(the order is derived, no record is created, dropped or edited). -/
theorem list_does_not_mutate_store (s : List Todo) :
    (listOp s).2 = s ∧ (listOp s).1.Perm s := by
  constructor
  · rfl
  · show (sortByCmp s).Perm s
    rw [sortByCmp_partition]
    have hperm := List.filter_append_perm (fun t : Todo => !t.completed) s
    simpa [Bool.not_not] using hperm

/-! ### C9: commit dispatches to Update or Add and closes the session -/

/-- C9: A commit whose title trims non-empty performs Update on the target
record when the editor session has one and Add when it does not; in both
cases the modal is closed and the edit target cleared afterwards. -/
theorem commit_dispatch (st : AppState) (text description : String) (clock : Nat)
    (h : jsTrim text ≠ "") :
    (∀ e, st.editing = some e →
        step st (.pressSave text description clock) =
          { st with
            todos := updateTodo e.id (jsTrim text) (jsTrim description) st.todos,
            editing := none, modalVisible := false }) ∧
    (st.editing = none →
        step st (.pressSave text description clock) =
          { st with
            todos := addTodo clock (jsTrim text) (jsTrim description) st.todos,
            editing := none, modalVisible := false }) := by
  constructor
  · intro e he
    simp [step, h, he]
  · intro he
    simp [step, h, he]

/-- Concrete instances of the commit dispatch theorem: with an edit target
the commit updates that record, without one it appends a fresh record;
both close the modal. -/
theorem commit_dispatch_witness :
    jsTrim "x" ≠ "" ∧
    step { todos := [{ id := "3", text := "a", description := "", completed := true }],
           modalVisible := true, editing := some { id := "3", text := "a", description := "" } }
        (.pressSave "x" " y " 5) =
      { todos := updateTodo "3" (jsTrim "x") (jsTrim " y ")
          [{ id := "3", text := "a", description := "", completed := true }],
        modalVisible := false, editing := none } ∧
    step { todos := [], modalVisible := true, editing := none }
        (.pressSave "x" " y " 5) =
      { todos := addTodo 5 (jsTrim "x") (jsTrim " y ") [],
        modalVisible := false, editing := none } :=
  ⟨by decide,
   (commit_dispatch
      { todos := [{ id := "3", text := "a", description := "", completed := true }],
        modalVisible := true, editing := some { id := "3", text := "a", description := "" } }
      "x" " y " 5 (by decide)).1 { id := "3", text := "a", description := "" } rfl,
   (commit_dispatch { todos := [], modalVisible := true, editing := none }
      "x" " y " 5 (by decide)).2 rfl⟩

/-! ### Length accounting for Add and Remove sequences -/

theorem removeTodo_eq_self_of_not_mem (id : String) (s : List Todo)
    (h : idMem id s = false) : removeTodo id s = s := by
  induction s with
  | nil => rfl
  | cons t ts ih =>
    simp only [idMem, Bool.or_eq_false_iff] at h
    have hne : t.id ≠ id := by
      intro e
      have : (id == t.id) = true := by simp [e]
      rw [this] at h
      exact Bool.true_eq_false.mp h.1
    have hkeep : (t.id != id) = true := by simp [bne, hne]
    have hrest : removeTodo id ts = ts := ih h.2
    simp only [removeTodo, List.filter_cons, hkeep, if_pos]
    simp only [removeTodo] at hrest
    rw [hrest]

theorem length_removeTodo (id : String) (s : List Todo)
    (hmem : idMem id s = true) (huniq : uniqueIds s = true) :
    (removeTodo id s).length + 1 = s.length := by
  induction s with
  | nil => simp [idMem] at hmem
  | cons t ts ih =>
    simp only [uniqueIds, Bool.and_eq_true, Bool.not_eq_true'] at huniq
    by_cases h : (id == t.id) = true
    · have hid : id = t.id := by simpa using h
      have hdrop : (t.id != id) = false := by simp [bne, hid]
      have hrest : removeTodo id ts = ts :=
        removeTodo_eq_self_of_not_mem id ts (by rw [hid]; exact huniq.1)
      simp only [removeTodo, List.filter_cons, hdrop, Bool.false_eq_true, if_false]
      simp only [removeTodo] at hrest
      rw [hrest]
      simp
    · have h' : (id == t.id) = false := by simpa using h
      have hmem' : idMem id ts = true := by
        simpa [idMem, h'] using hmem
      have hne : t.id ≠ id := by
        intro e
        rw [e] at h'
        simp at h'
      have hkeep : (t.id != id) = true := by simp [bne, hne]
      have := ih hmem' huniq.2
      simp only [removeTodo, List.filter_cons, hkeep, if_pos, List.length_cons]
      simp only [removeTodo] at this
      omega

theorem idMem_removeTodo_false (i id : String) (s : List Todo)
    (h : idMem i s = false) : idMem i (removeTodo id s) = false := by
  induction s with
  | nil => rfl
  | cons t ts ih =>
    simp only [idMem, Bool.or_eq_false_iff] at h
    by_cases hk : (t.id != id) = true
    · simp [removeTodo, List.filter_cons, hk, idMem, h.1]
      simpa [removeTodo] using ih h.2
    · have hk' : (t.id != id) = false := by simpa using hk
      simp [removeTodo, List.filter_cons, hk']
      simpa [removeTodo] using ih h.2

theorem uniqueIds_removeTodo (id : String) (s : List Todo)
    (h : uniqueIds s = true) : uniqueIds (removeTodo id s) = true := by
  induction s with
  | nil => rfl
  | cons t ts ih =>
    simp only [uniqueIds, Bool.and_eq_true, Bool.not_eq_true'] at h
    by_cases hk : (t.id != id) = true
    · have h1 : idMem t.id (removeTodo id ts) = false :=
        idMem_removeTodo_false t.id id ts h.1
      simp only [removeTodo, List.filter_cons, hk, if_pos, uniqueIds]
      simp only [removeTodo] at h1 ih
      simp [h1, ih h.2]
    · have hk' : (t.id != id) = false := by simpa using hk
      simp only [removeTodo, List.filter_cons, hk', Bool.false_eq_true, if_false]
      simpa [removeTodo] using ih h.2

theorem idMem_append (i : String) (s : List Todo) (t : Todo) :
    idMem i (s ++ [t]) = (idMem i s || i == t.id) := by
  induction s with
  | nil => simp [idMem]
  | cons u us ih => simp [idMem, ih, Bool.or_assoc]

theorem uniqueIds_append (s : List Todo) (t : Todo)
    (hu : uniqueIds s = true) (hf : idMem t.id s = false) :
    uniqueIds (s ++ [t]) = true := by
  induction s with
  | nil => simp [uniqueIds, idMem]
  | cons u us ih =>
    simp only [idMem, Bool.or_eq_false_iff] at hf
    simp only [uniqueIds, Bool.and_eq_true, Bool.not_eq_true'] at hu
    have hne : (u.id == t.id) = false := by
      have : t.id ≠ u.id := by simpa using hf.1
      simpa using fun e => this e.symm
    have h1 : idMem u.id (us ++ [t]) = false := by
      rw [idMem_append]
      simp [hu.1, hne]
    simp only [List.cons_append, uniqueIds, Bool.and_eq_true, Bool.not_eq_true']
    exact ⟨h1, ih hu.2 hf.2⟩

theorem runOps_length (ops : List StoreOp) :
    ∀ s : List Todo, uniqueIds s = true → wfOps s ops = true →
      (runOps s ops).length + countRemoves ops = s.length + countAdds ops := by
  induction ops with
  | nil =>
    intro s _ _
    simp [runOps, countAdds, countRemoves]
  | cons op ops ih =>
    intro s hu hwf
    cases op with
    | add text description clock =>
      simp only [wfOps, Bool.and_eq_true, Bool.not_eq_true'] at hwf
      obtain ⟨⟨_, hfresh⟩, hwf'⟩ := hwf
      have hu' : uniqueIds (applyOp s (.add text description clock)) = true := by
        simp only [applyOp, addTodo]
        exact uniqueIds_append s _ hu hfresh
      have hlen := ih (applyOp s (.add text description clock)) hu' hwf'
      have hgrow : (applyOp s (.add text description clock)).length = s.length + 1 := by
        simp [applyOp, addTodo]
      have hrun : runOps s (.add text description clock :: ops)
          = runOps (applyOp s (.add text description clock)) ops := rfl
      rw [hrun]
      simp only [countAdds, countRemoves]
      omega
    | remove id =>
      simp only [wfOps, Bool.and_eq_true] at hwf
      obtain ⟨hmem, hwf'⟩ := hwf
      have hu' : uniqueIds (applyOp s (.remove id)) = true := by
        simp only [applyOp]
        exact uniqueIds_removeTodo id s hu
      have hlen := ih (applyOp s (.remove id)) hu' hwf'
      have hshrink : (applyOp s (.remove id)).length + 1 = s.length := by
        simp only [applyOp]
        exact length_removeTodo id s hmem hu
      have hrun : runOps s (.remove id :: ops)
          = runOps (applyOp s (.remove id)) ops := rfl
      rw [hrun]
      simp only [countAdds, countRemoves]
      omega

/-! ### C5: List() length equals Adds minus Removes -/

/-- C5: Starting from the empty store, for every interleaving of Adds with
non-empty trimmed titles and fresh timestamps with Removes of identifiers
present in the store, the final store length is the number of Adds minus
the number of Removes. -/
theorem add_remove_length (ops : List StoreOp) (h : wfOps [] ops = true) :
    (runOps [] ops).length = countAdds ops - countRemoves ops := by
  have hacc := runOps_length ops [] rfl h
  simp only [List.length_nil] at hacc
  omega

/-- Concrete instance of the length accounting: three Adds and one Remove
leave two records. -/
theorem add_remove_length_witness :
    wfOps [] [StoreOp.add "a" "" 1, StoreOp.add "b" "" 2, StoreOp.remove "1",
              StoreOp.add "c" "" 3] = true ∧
    (runOps [] [StoreOp.add "a" "" 1, StoreOp.add "b" "" 2, StoreOp.remove "1",
                StoreOp.add "c" "" 3]).length =
      countAdds [StoreOp.add "a" "" 1, StoreOp.add "b" "" 2, StoreOp.remove "1",
                 StoreOp.add "c" "" 3] -
        countRemoves [StoreOp.add "a" "" 1, StoreOp.add "b" "" 2, StoreOp.remove "1",
                      StoreOp.add "c" "" 3] :=
  ⟨by decide, add_remove_length _ (by decide)⟩

/-! ### C6: identifiers from Date.now() are not unique -/

/-- C6 fails on the code: handleAdd derives the identifier from the
wall-clock reading, so two Adds within the same millisecond (clock = 1000
for both) produce two records with the same id "1000", and after removing
id "1000" a later Add in the same millisecond reassigns that id. -/
theorem timestamp_id_collision :
    (runOps [] [StoreOp.add "a" "" 1000, StoreOp.add "b" "" 1000]).map Todo.id =
      ["1000", "1000"] ∧
    uniqueIds (runOps [] [StoreOp.add "a" "" 1000, StoreOp.add "b" "" 1000]) = false ∧
    (runOps [] [StoreOp.add "a" "" 1000, StoreOp.remove "1000",
                StoreOp.add "b" "" 1000]).map Todo.id = ["1000"] := by
  decide

/-! ### Idempotence of the trim model -/

theorem dropWhile_dropWhile (p : Char → Bool) (l : List Char) :
    (l.dropWhile p).dropWhile p = l.dropWhile p := by
  induction l with
  | nil => rfl
  | cons c cs ih =>
    by_cases h : p c
    · simpa [List.dropWhile_cons, h] using ih
    · simp [List.dropWhile_cons, h]

theorem head?_dropWhile_false (p : Char → Bool) (l : List Char) :
    ∀ x, (l.dropWhile p).head? = some x → p x = false := by
  induction l with
  | nil =>
    intro x hx
    simp at hx
  | cons c cs ih =>
    intro x hx
    by_cases h : p c
    · exact ih x (by simpa [List.dropWhile_cons, h] using hx)
    · rw [List.dropWhile_cons, if_neg (by simpa using h)] at hx
      simp only [List.head?_cons, Option.some.injEq] at hx
      rw [← hx]
      simpa using h

theorem dropWhile_eq_self_of_head (p : Char → Bool) (l : List Char)
    (h : ∀ x, l.head? = some x → p x = false) : l.dropWhile p = l := by
  cases l with
  | nil => rfl
  | cons c cs =>
    have hc := h c rfl
    simp [List.dropWhile_cons, hc]

theorem getLast?_dropWhile (p : Char → Bool) (l : List Char) :
    l.dropWhile p = [] ∨ (l.dropWhile p).getLast? = l.getLast? := by
  induction l with
  | nil => exact Or.inl rfl
  | cons c cs ih =>
    by_cases h : p c
    · rw [List.dropWhile_cons, if_pos (by simpa using h)]
      cases cs with
      | nil =>
        exact Or.inl rfl
      | cons d ds =>
        rcases ih with h1 | h2
        · exact Or.inl h1
        · right
          rw [h2, List.getLast?_cons_cons]
    · right
      rw [List.dropWhile_cons, if_neg (by simpa using h)]

theorem trimmed_list_head (l : List Char) :
    ∀ x, (((l.dropWhile isJsWs).reverse.dropWhile isJsWs).reverse).head? = some x →
      isJsWs x = false := by
  intro x hx
  rw [List.head?_reverse] at hx
  rcases getLast?_dropWhile isJsWs (l.dropWhile isJsWs).reverse with h1 | h2
  · rw [h1] at hx
    simp at hx
  · rw [h2, List.getLast?_reverse] at hx
    exact head?_dropWhile_false isJsWs l x hx

theorem jsTrim_idem (s : String) : jsTrim (jsTrim s) = jsTrim s := by
  have hdata : (jsTrim s).data
      = ((s.data.dropWhile isJsWs).reverse.dropWhile isJsWs).reverse := rfl
  have hhead := dropWhile_eq_self_of_head isJsWs
      ((s.data.dropWhile isJsWs).reverse.dropWhile isJsWs).reverse
      (trimmed_list_head s.data)
  show String.mk (((jsTrim s).data.dropWhile isJsWs).reverse.dropWhile isJsWs).reverse
      = jsTrim s
  rw [hdata, hhead, List.reverse_reverse, dropWhile_dropWhile]
  rfl

/-! ### The trimmed-store invariant is preserved by every event -/

theorem storeTrimmed_mem (s : List Todo) (h : storeTrimmed s = true) :
    ∀ t ∈ s, trimmedTodo t = true := by
  simpa [storeTrimmed, List.all_eq_true] using h

theorem trimmedTodo_saved (u : Todo) (rawText rawDesc : String)
    (hne : jsTrim rawText ≠ "") :
    trimmedTodo { u with text := jsTrim rawText, description := jsTrim rawDesc } = true := by
  simp [trimmedTodo, jsTrim_idem, hne]

theorem storeTrimmed_update (idv rawText rawDesc : String) (s : List Todo)
    (hs : storeTrimmed s = true) (hne : jsTrim rawText ≠ "") :
    storeTrimmed (updateTodo idv (jsTrim rawText) (jsTrim rawDesc) s) = true := by
  rw [storeTrimmed, List.all_eq_true]
  intro t ht
  rw [updateTodo, List.mem_map] at ht
  obtain ⟨u, hu, hut⟩ := ht
  by_cases h : (u.id == idv) = true
  · rw [← hut, if_pos h]
    exact trimmedTodo_saved u rawText rawDesc hne
  · have h' : (u.id == idv) = false := by simpa using h
    rw [← hut, h']
    simpa using storeTrimmed_mem s hs u hu

theorem storeTrimmed_add (clock : Nat) (rawText rawDesc : String) (s : List Todo)
    (hs : storeTrimmed s = true) (hne : jsTrim rawText ≠ "") :
    storeTrimmed (addTodo clock (jsTrim rawText) (jsTrim rawDesc) s) = true := by
  rw [storeTrimmed, addTodo, List.all_append]
  have hnew : trimmedTodo
      { id := Nat.repr clock, text := jsTrim rawText, description := jsTrim rawDesc,
        completed := false } = true := by
    simp [trimmedTodo, jsTrim_idem, hne]
  simp only [storeTrimmed] at hs
  simp [hs, hnew]

theorem storeTrimmed_toggle (idv : String) (s : List Todo)
    (hs : storeTrimmed s = true) : storeTrimmed (toggleTodo idv s) = true := by
  rw [storeTrimmed, List.all_eq_true]
  intro t ht
  rw [toggleTodo, List.mem_map] at ht
  obtain ⟨u, hu, hut⟩ := ht
  have hu' := storeTrimmed_mem s hs u hu
  by_cases h : (u.id == idv) = true
  · rw [← hut, if_pos h]
    simpa [trimmedTodo] using hu'
  · have h' : (u.id == idv) = false := by simpa using h
    rw [← hut, h']
    exact hu'

theorem storeTrimmed_remove (idv : String) (s : List Todo)
    (hs : storeTrimmed s = true) : storeTrimmed (removeTodo idv s) = true := by
  rw [storeTrimmed, List.all_eq_true]
  intro t ht
  rw [removeTodo, List.mem_filter] at ht
  exact storeTrimmed_mem s hs t ht.1

theorem storeTrimmed_step (st : AppState) (e : Event)
    (h : storeTrimmed st.todos = true) : storeTrimmed (step st e).todos = true := by
  cases e with
  | pressSave text description clock =>
    by_cases ht : jsTrim text = ""
    · simpa [step, ht] using h
    · cases he : st.editing with
      | some e0 =>
        simp only [step, if_neg ht, he]
        exact storeTrimmed_update e0.id text description st.todos h ht
      | none =>
        simp only [step, if_neg ht, he]
        exact storeTrimmed_add clock text description st.todos h ht
  | pressCancel => simpa [step] using h
  | pressFab => simpa [step] using h
  | pressEditItem i =>
    cases hf : st.todos.find? (fun t => t.id == i) with
    | some t => simpa [step, hf] using h
    | none => simpa [step, hf] using h
  | pressToggle i =>
    simp only [step]
    exact storeTrimmed_toggle i st.todos h
  | pressDelete i =>
    simp only [step]
    exact storeTrimmed_remove i st.todos h

theorem foldl_step_trimmed (events : List Event) :
    ∀ st : AppState, storeTrimmed st.todos = true →
      storeTrimmed ((events.foldl step st).todos) = true := by
  induction events with
  | nil =>
    intro st h
    simpa using h
  | cons e es ih =>
    intro st h
    rw [List.foldl_cons]
    exact ih _ (storeTrimmed_step st e h)

/-! ### C10: every stored record is trimmed with a non-empty title -/

/-- C10: In every App state reachable through the user interface from the
initial state, every record in the store has a title that equals its own
trim and is non-empty, and a description that equals its own trim, because
the commit path trims both fields and is the only way records are created
or rewritten. -/
theorem ui_reachable_store_trimmed (events : List Event) :
    storeTrimmed (run events).todos = true :=
  foldl_step_trimmed events initState rfl

/-- Concrete instance of the update frame theorem: updating id "1" in a
two-record store rewrites the matching head record's text and note only. -/
theorem update_frame_witness :
    (0 : Nat) < ([⟨"1", "a", "", false⟩, ⟨"2", "b", "", true⟩] : List Todo).length ∧
    ∃ t t', ([⟨"1", "a", "", false⟩, ⟨"2", "b", "", true⟩] : List Todo)[0]? = some t ∧
      (updateTodo "1" "n" "nd"
        [⟨"1", "a", "", false⟩, ⟨"2", "b", "", true⟩])[0]? = some t' ∧
      t'.id = t.id ∧ t'.completed = t.completed ∧
      (t.id ≠ "1" → t' = t) ∧ (t.id = "1" → t'.text = "n" ∧ t'.description = "nd") :=
  ⟨by decide,
   (update_frame "1" "n" "nd" [⟨"1", "a", "", false⟩, ⟨"2", "b", "", true⟩]).2 0
     (by decide)⟩

/-- Counterexamples to the unconditional length accounting: a Remove of an
identifier that is not in the store is a silent no-op, so one Add with a
non-empty title followed by one Remove of an absent id leaves one record,
not zero; and two Adds in the same clock millisecond share an id, so one
Remove then deletes both records at once. -/
theorem remove_absent_breaks_count :
    jsTrim "a" ≠ "" ∧ jsTrim "b" ≠ "" ∧
    (runOps [] [StoreOp.add "a" "" 1, StoreOp.remove "zz"]).length ≠
      countAdds [StoreOp.add "a" "" 1, StoreOp.remove "zz"] -
        countRemoves [StoreOp.add "a" "" 1, StoreOp.remove "zz"] ∧
    (runOps [] [StoreOp.add "a" "" 5, StoreOp.add "b" "" 5,
                StoreOp.remove "5"]).length ≠
      countAdds [StoreOp.add "a" "" 5, StoreOp.add "b" "" 5, StoreOp.remove "5"] -
        countRemoves [StoreOp.add "a" "" 5, StoreOp.add "b" "" 5,
                      StoreOp.remove "5"] := by
  decide
